import Mathlib

/-!
Shallow embedding of the adaboards API membership/authorization core.

The persistence store (Prisma over SQLite) is modelled as an explicit
`Store` value holding the User, Board, Membership and Task rows; each
service method of `board.service.ts`, `membership.service.ts` and
`task.service.ts` becomes a pure function on `Store` returning
`Except Err` (a thrown service error aborts before any mutation in the
source, so an error result leaves the store unchanged).  The board and
task services throw typed error classes (`NotFoundError`,
`ForbiddenError`, `BadRequestError` of src/errors); the membership
service throws plain `Error` values, which its controller classifies
into HTTP statuses by substring dispatch on the message — both layers
are embedded.
-/

namespace Adaboards

/-- Role enum of the Prisma schema: OWNER, MAINTAINER, MEMBER. -/
inductive Role where
  | OWNER
  | MAINTAINER
  | MEMBER
deriving DecidableEq, Repr

/-- TaskStatus enum of the Prisma schema: TODO, IN_PROGRESS, DONE. -/
inductive TaskStatus where
  | TODO
  | IN_PROGRESS
  | DONE
deriving DecidableEq, Repr

/-- User row (id, unique email, name); password/date columns are not
load-bearing for the verified claims. -/
structure User where
  id : String
  email : String
  name : String
deriving DecidableEq, Repr

/-- Board row (id, name). -/
structure Board where
  id : String
  name : String
deriving DecidableEq, Repr

/-- Membership row: the (userId, boardId) join entity with a role,
unique per (userId, boardId) pair by the Membership_userId_boardId_key
index of migration.sql. -/
structure Membership where
  userId : String
  boardId : String
  role : Role
deriving DecidableEq, Repr

/-- Task row of the Prisma schema. -/
structure Task where
  id : String
  title : String
  description : Option String
  status : TaskStatus
  boardId : String
  createdBy : String
  assignedTo : Option String
deriving DecidableEq, Repr

/-- The relational store: Users, Boards, Memberships, Tasks. -/
structure Store where
  users : List User
  boards : List Board
  memberships : List Membership
  tasks : List Task
deriving DecidableEq, Repr

/-- The empty store. -/
def Store.empty : Store := ⟨[], [], [], []⟩

instance {ε α : Type} [DecidableEq ε] [DecidableEq α] : DecidableEq (Except ε α) := fun x y =>
  match x, y with
  | .ok a, .ok b => decidable_of_iff (a = b) (by simp)
  | .ok _, .error _ => isFalse (by simp)
  | .error _, .ok _ => isFalse (by simp)
  | .error e, .error f => decidable_of_iff (e = f) (by simp)

/-- Typed error taxonomy: the first three mirror the error classes of
src/errors used by the board and task services; `plainE` is a plain
JavaScript `Error` as thrown by the membership service. -/
inductive Err where
  | notFoundE (msg : String)
  | forbiddenE (msg : String)
  | badRequestE (msg : String)
  | plainE (msg : String)
deriving DecidableEq, Repr

/-- Message carried by an error, as `error.message`. -/
def Err.message : Err → String
  | .notFoundE m => m
  | .forbiddenE m => m
  | .badRequestE m => m
  | .plainE m => m

def msgBoardNotFound : String := "Board not found or access denied"
def msgOnlyManagersUpdateBoards : String := "Only owners and maintainers can update boards"
def msgOnlyOwnersDeleteBoards : String := "Only owners can delete boards"
def msgOnlyManagersAddMembers : String := "Only owners and maintainers can add members"
def msgOnlyManagersUpdateRoles : String := "Only owners and maintainers can update member roles"
def msgOnlyManagersRemoveMembers : String := "Only owners and maintainers can remove members"
def msgUserNotFound : String := "User not found"
def msgMemberNotFound : String := "Member not found"
def msgAlreadyMember : String := "User is already a member of this board"
def msgLastOwnerChange : String := "Cannot change the role of the last owner"
def msgLastOwnerRemove : String := "Cannot remove the last owner"
def msgTaskNotFound : String := "Task not found"
def msgAssigneeNotMember : String := "Assigned user is not a member of this board"
def msgDeleteTaskForbidden : String := "Only task creator, owners and maintainers can delete tasks"

def subNotFound : String := "not found"
def subAccessDenied : String := "access denied"
def subOnlyOwners : String := "Only owners"
def subLastOwner : String := "last owner"
def subAlreadyMember : String := "already a member"

/-- Whether the char list `needle` starts the char list `hay`. -/
def charsStartWith : List Char → List Char → Bool
  | [], _ => true
  | _ :: _, [] => false
  | a :: as, b :: bs => a == b && charsStartWith as bs

/-- Whether `needle` occurs contiguously inside `hay`
(JavaScript String.includes over the char lists). -/
def charsContain : List Char → List Char → Bool
  | [], needle => needle.isEmpty
  | c :: t, needle => charsStartWith needle (c :: t) || charsContain t needle

/-- message.includes(sub) of the controllers. -/
def strContains (hay sub : String) : Bool := charsContain hay.toList sub.toList

/-- ASCII case folding on a character code, as SQLite LIKE folds the
ASCII range. -/
def foldCaseNat (n : Nat) : Nat := if 65 ≤ n ∧ n ≤ 90 then n + 32 else n

/-- Case-insensitive character comparison (ASCII folding). -/
def charEqCI (a b : Char) : Bool := foldCaseNat a.toNat == foldCaseNat b.toNat

/-- Case-insensitive version of charsStartWith. -/
def charsStartWithCI : List Char → List Char → Bool
  | [], _ => true
  | _ :: _, [] => false
  | a :: as, b :: bs => charEqCI a b && charsStartWithCI as bs

/-- Case-insensitive version of charsContain. -/
def charsContainCI : List Char → List Char → Bool
  | [], needle => needle.isEmpty
  | c :: t, needle => charsStartWithCI needle (c :: t) || charsContainCI t needle

/-- Case-insensitive substring match: Prisma `contains` over SQLite
compiles to LIKE, which is case-insensitive over ASCII. -/
def ciContains (hay sub : String) : Bool := charsContainCI hay.toList sub.toList

/-- JavaScript String.prototype.trim: strip leading and trailing
whitespace. -/
def strTrim (s : String) : String :=
  ⟨((s.data.dropWhile Char.isWhitespace).reverse.dropWhile Char.isWhitespace).reverse⟩

/-- Status dispatch of MembershipController.getBoardMembers: 404 when
the message has "not found" or "access denied", otherwise 500. -/
def memberListStatus (msg : String) : Nat :=
  if strContains msg subNotFound || strContains msg subAccessDenied then 404 else 500

/-- Status dispatch of MembershipController.addMember:
404 for "not found", 403 for "access denied" / "Only owners",
409 for "already a member", else 500. -/
def addMemberStatus (msg : String) : Nat :=
  if strContains msg subNotFound then 404
  else if strContains msg subAccessDenied || strContains msg subOnlyOwners then 403
  else if strContains msg subAlreadyMember then 409
  else 500

/-- Status dispatch of MembershipController.updateMemberRole and
removeMember: 404 for "not found", 403 for "access denied" /
"Only owners" / "last owner", else 500. -/
def memberMutateStatus (msg : String) : Nat :=
  if strContains msg subNotFound then 404
  else if strContains msg subAccessDenied || strContains msg subOnlyOwners
          || strContains msg subLastOwner then 403
  else 500

/-- mapError of src/utils/http.ts: typed error classes to HTTP status;
a plain Error falls through to 500. -/
def mapErrorStatus : Err → Nat
  | .notFoundE _ => 404
  | .forbiddenE _ => 403
  | .badRequestE _ => 400
  | .plainE _ => 500

/-- prisma.membership.findUnique on the (userId, boardId) unique key. -/
def findMembership (s : Store) (userId boardId : String) : Option Membership :=
  s.memberships.find? (fun m => m.userId == userId && m.boardId == boardId)

/-- prisma.user.findUnique on id. -/
def findUser (s : Store) (userId : String) : Option User :=
  s.users.find? (fun u => u.id == userId)

/-- prisma.board.findUnique on id (through the membership include). -/
def findBoard (s : Store) (boardId : String) : Option Board :=
  s.boards.find? (fun b => b.id == boardId)

/-- prisma.task.findFirst where { id: taskId, boardId }. -/
def findTask (s : Store) (taskId boardId : String) : Option Task :=
  s.tasks.find? (fun t => t.id == taskId && t.boardId == boardId)

/-- prisma.membership.count where { boardId, role: OWNER } over a
membership table. -/
def ownerCountL (ms : List Membership) (boardId : String) : Nat :=
  ms.countP (fun m => m.boardId == boardId && m.role == Role.OWNER)

/-- prisma.membership.count where { boardId, role: OWNER }. -/
def ownerCount (s : Store) (boardId : String) : Nat :=
  ownerCountL s.memberships boardId

/-- The (userId, boardId) key of a membership row, the column pair of
the unique index Membership_userId_boardId_key. -/
def membershipKey (m : Membership) : String × String := (m.userId, m.boardId)

/-- BoardService.createBoard: prisma.board.create with a nested
memberships.create of (userId, OWNER) — a single atomic store
operation; `newBoardId` stands for the freshly generated cuid. -/
def createBoard (s : Store) (name userId newBoardId : String) : Board × Store :=
  (⟨newBoardId, name⟩,
   { s with
       boards := s.boards ++ [⟨newBoardId, name⟩],
       memberships := s.memberships ++ [⟨userId, newBoardId, Role.OWNER⟩] })

/-- BoardService.getBoard: membership lookup, NotFoundError when the
caller holds no membership; returns the board joined with the caller
role. -/
def getBoard (s : Store) (boardId userId : String) : Except Err (Option Board × Role) :=
  match findMembership s userId boardId with
  | none => .error (.notFoundE msgBoardNotFound)
  | some m => .ok (findBoard s boardId, m.role)

/-- BoardService.updateBoard: membership lookup (NotFoundError), then a
MEMBER caller is rejected with ForbiddenError, then the name is
updated. -/
def updateBoard (s : Store) (boardId userId name : String) : Except Err Store :=
  match findMembership s userId boardId with
  | none => .error (.notFoundE msgBoardNotFound)
  | some m =>
    if m.role = Role.MEMBER then .error (.forbiddenE msgOnlyManagersUpdateBoards)
    else .ok { s with
      boards := s.boards.map (fun b => if b.id == boardId then ⟨b.id, name⟩ else b) }

/-- BoardService.deleteBoard: membership lookup (NotFoundError), only an
OWNER may delete (ForbiddenError); the delete cascades to the board
memberships and tasks per the ON DELETE CASCADE constraints of
migration.sql. -/
def deleteBoard (s : Store) (boardId userId : String) : Except Err Store :=
  match findMembership s userId boardId with
  | none => .error (.notFoundE msgBoardNotFound)
  | some m =>
    if m.role = Role.OWNER then
      .ok { s with
        boards := s.boards.filter (fun b => !(b.id == boardId)),
        memberships := s.memberships.filter (fun mm => !(mm.boardId == boardId)),
        tasks := s.tasks.filter (fun t => !(t.boardId == boardId)) }
    else .error (.forbiddenE msgOnlyOwnersDeleteBoards)

/-- MembershipService.getBoardMembers: membership check (plain Error
with the board-not-found message), then all memberships of the board. -/
def getBoardMembers (s : Store) (boardId userId : String) : Except Err (List Membership) :=
  match findMembership s userId boardId with
  | none => .error (.plainE msgBoardNotFound)
  | some _ => .ok (s.memberships.filter (fun m => m.boardId == boardId))

/-- MembershipService.addMember: actor membership check, actor must not
be MEMBER, target user must exist, target must not already hold a
membership; then the membership row is created. -/
def addMember (s : Store) (boardId currentUserId targetUserId : String) (role : Role) :
    Except Err (Membership × Store) :=
  match findMembership s currentUserId boardId with
  | none => .error (.plainE msgBoardNotFound)
  | some cm =>
    if cm.role = Role.MEMBER then .error (.plainE msgOnlyManagersAddMembers)
    else
      match findUser s targetUserId with
      | none => .error (.plainE msgUserNotFound)
      | some _ =>
        match findMembership s targetUserId boardId with
        | some _ => .error (.plainE msgAlreadyMember)
        | none =>
          .ok (⟨targetUserId, boardId, role⟩,
               { s with memberships := s.memberships ++ [⟨targetUserId, boardId, role⟩] })

/-- MembershipService.updateMemberRole: actor membership check, actor
must not be MEMBER, target membership must exist; when the target is
an OWNER and the board has exactly one OWNER the call is rejected with
the last-owner message; otherwise the role column is updated. -/
def updateMemberRole (s : Store) (boardId currentUserId targetUserId : String) (newRole : Role) :
    Except Err (Membership × Store) :=
  match findMembership s currentUserId boardId with
  | none => .error (.plainE msgBoardNotFound)
  | some cm =>
    if cm.role = Role.MEMBER then .error (.plainE msgOnlyManagersUpdateRoles)
    else
      match findMembership s targetUserId boardId with
      | none => .error (.plainE msgMemberNotFound)
      | some tm =>
        if tm.role = Role.OWNER ∧ ownerCount s boardId = 1 then
          .error (.plainE msgLastOwnerChange)
        else
          let ms := s.memberships.map fun m =>
            if m.userId == targetUserId && m.boardId == boardId
            then { m with role := newRole } else m
          .ok ({ tm with role := newRole }, { s with memberships := ms })

/-- MembershipService.removeMember: actor membership check, actor must
not be MEMBER, target membership must exist; when the target is an
OWNER and the board has exactly one OWNER the call is rejected with the
last-owner message; otherwise the membership row is deleted. -/
def removeMember (s : Store) (boardId currentUserId targetUserId : String) : Except Err Store :=
  match findMembership s currentUserId boardId with
  | none => .error (.plainE msgBoardNotFound)
  | some cm =>
    if cm.role = Role.MEMBER then .error (.plainE msgOnlyManagersRemoveMembers)
    else
      match findMembership s targetUserId boardId with
      | none => .error (.plainE msgMemberNotFound)
      | some tm =>
        if tm.role = Role.OWNER ∧ ownerCount s boardId = 1 then
          .error (.plainE msgLastOwnerRemove)
        else
          let ms := s.memberships.filter fun m =>
            !(m.userId == targetUserId && m.boardId == boardId)
          .ok { s with memberships := ms }

/-- Lexicographic string comparison by character code, the collation
of ORDER BY name ASC. -/
def charsLe : List Char → List Char → Bool
  | [], _ => true
  | _ :: _, [] => false
  | a :: as, b :: bs =>
    if a.toNat = b.toNat then charsLe as bs else decide (a.toNat < b.toNat)

/-- Ordering used by searchUsers: name ascending. -/
def nameOrder (u v : User) : Prop := charsLe u.name.data v.name.data = true

instance : DecidableRel nameOrder := fun u v =>
  decidable_of_iff (charsLe u.name.data v.name.data = true) Iff.rfl

/-- orderBy name asc of searchUsers. -/
def sortByName (l : List User) : List User := l.insertionSort nameOrder

/-- The prisma where-clause of searchUsers: id not excludeUserId AND
(email contains query OR name contains query), `contains` being
case-insensitive over SQLite. -/
def userMatches (query currentUserId : String) (u : User) : Bool :=
  !(u.id == currentUserId) && (ciContains u.email query || ciContains u.name query)

/-- MembershipService.searchUsers: a falsy or sub-2-chars-after-trim
query short-circuits to the empty list without a store query; otherwise
the matching users excluding the caller, ordered by name ascending,
truncated to `limit`. -/
def searchUsers (s : Store) (query currentUserId : String) (limit : Nat) : List User :=
  if query = "" || (strTrim query).length < 2 then []
  else (sortByName (s.users.filter (userMatches query currentUserId))).take limit

/-- searchUsers at its default limit argument of 10. -/
def searchUsersDefault (s : Store) (query currentUserId : String) : List User :=
  searchUsers s query currentUserId 10

/-- Spec-side restatement of the searchUsers sentence, written from the
spec words: if the trimmed query length is below 2 the empty sequence;
else exactly the users whose email or name contains the query
case-insensitively, excluding excludeUserId, ordered by name ascending,
truncated to limit. -/
def searchUsersSpec (s : Store) (query excludeUserId : String) (limit : Nat) : List User :=
  if (strTrim query).length < 2 then []
  else (sortByName (s.users.filter
          (fun u => decide (u.id ≠ excludeUserId)
                    && (ciContains u.email query || ciContains u.name query)))).take limit

/-- TaskService.verifyBoardAccess: the membership lookup, NotFoundError
with the board-not-found message when absent. -/
def verifyBoardAccess (s : Store) (boardId userId : String) : Except Err Membership :=
  match findMembership s userId boardId with
  | none => .error (.notFoundE msgBoardNotFound)
  | some m => .ok m

/-- TaskService.getBoardTasks: access check then the tasks of the
board. -/
def getBoardTasks (s : Store) (boardId userId : String) : Except Err (List Task) :=
  match verifyBoardAccess s boardId userId with
  | .error e => .error e
  | .ok _ => .ok (s.tasks.filter (fun t => t.boardId == boardId))

/-- Body of a createTask request: title, optional description, optional
status (default TODO), optional assignee. -/
structure CreateTaskData where
  title : String
  description : Option String
  status : Option TaskStatus
  assignedTo : Option String
deriving DecidableEq, Repr

/-- TaskService.createTask: access check; a truthy assignedTo (present
and non-empty in JavaScript) must hold a membership on the board, else
BadRequestError; the task is created with createdBy = userId;
`newTaskId` stands for the generated cuid. -/
def createTask (s : Store) (boardId userId newTaskId : String) (d : CreateTaskData) :
    Except Err (Task × Store) :=
  match findMembership s userId boardId with
  | none => .error (.notFoundE msgBoardNotFound)
  | some _ =>
    let newTask : Task :=
      { id := newTaskId, title := d.title, description := d.description,
        status := d.status.getD TaskStatus.TODO, boardId := boardId,
        createdBy := userId, assignedTo := d.assignedTo }
    let created : Except Err (Task × Store) :=
      .ok (newTask, { s with tasks := s.tasks ++ [newTask] })
    match d.assignedTo with
    | some a =>
      if a = "" then created
      else if (findMembership s a boardId).isSome then created
      else .error (.badRequestE msgAssigneeNotMember)
    | none => created

/-- Body of an updateTask request; assignedTo distinguishes absent
(outer none), explicit null (some none) and a user id
(some (some id)), matching the undefined / null / string cases of the
source. -/
structure UpdateTaskData where
  title : Option String
  description : Option String
  status : Option TaskStatus
  assignedTo : Option (Option String)
deriving DecidableEq, Repr

/-- The assignedTo validation of updateTask: only a present non-null
assignee is re-validated against board membership. -/
def assigneeOk (s : Store) (boardId : String) (d : UpdateTaskData) : Bool :=
  match d.assignedTo with
  | some (some a) => (findMembership s a boardId).isSome
  | _ => true

/-- The prisma.task.update data clause of updateTask: absent fields are
left untouched, an explicit null assignedTo clears the assignment. -/
def applyTaskUpdate (d : UpdateTaskData) (t : Task) : Task :=
  { t with
      title := d.title.getD t.title,
      description := match d.description with | none => t.description | some x => some x,
      status := d.status.getD t.status,
      assignedTo := match d.assignedTo with | none => t.assignedTo | some v => v }

/-- TaskService.updateTask: access check; the task must exist on the
board (NotFoundError); a present non-null assignee must be a board
member (BadRequestError); then the partial update is applied. No role
or creator condition appears. -/
def updateTask (s : Store) (boardId taskId userId : String) (d : UpdateTaskData) :
    Except Err (Task × Store) :=
  match findMembership s userId boardId with
  | none => .error (.notFoundE msgBoardNotFound)
  | some _ =>
    match findTask s taskId boardId with
    | none => .error (.notFoundE msgTaskNotFound)
    | some t =>
      if assigneeOk s boardId d then
        let ts := s.tasks.map fun u =>
          if u.id == taskId then applyTaskUpdate d u else u
        .ok (applyTaskUpdate d t, { s with tasks := ts })
      else .error (.badRequestE msgAssigneeNotMember)

/-- TaskService.deleteTask: access check capturing the caller
membership; the task must exist on the board (NotFoundError); deletion
is allowed iff the caller created the task or holds the OWNER or
MAINTAINER role, else ForbiddenError; on success the row is deleted. -/
def deleteTask (s : Store) (boardId taskId userId : String) : Except Err Store :=
  match findMembership s userId boardId with
  | none => .error (.notFoundE msgBoardNotFound)
  | some membership =>
    match findTask s taskId boardId with
    | none => .error (.notFoundE msgTaskNotFound)
    | some t =>
      if t.createdBy == userId || membership.role == Role.OWNER
         || membership.role == Role.MAINTAINER then
        .ok { s with tasks := s.tasks.filter (fun u => !(u.id == taskId)) }
      else .error (.forbiddenE msgDeleteTaskForbidden)

/-- Freshness of a generated board id: the cuid is new to the store. -/
def boardIdFresh (s : Store) (b : String) : Prop :=
  (∀ bd ∈ s.boards, bd.id ≠ b) ∧ (∀ m ∈ s.memberships, m.boardId ≠ b)
  ∧ (∀ t ∈ s.tasks, t.boardId ≠ b)

instance (s : Store) (b : String) : Decidable (boardIdFresh s b) := by
  unfold boardIdFresh; infer_instance

/-- One mutating service call: the transition relation of the system.
Mutations happen only through the success branches of the service
methods; register and createBoard take the store-generated fresh ids
as explicit constructor data. -/
inductive Step : Store → Store → Prop where
  | register (s : Store) (u : User)
      (hid : findUser s u.id = none)
      (hemail : s.users.find? (fun v => v.email == u.email) = none) :
      Step s { s with users := s.users ++ [u] }
  | createBoard (s : Store) (name userId newBoardId : String)
      (hfresh : boardIdFresh s newBoardId) :
      Step s (createBoard s name userId newBoardId).2
  | updateBoard (s : Store) (boardId userId name : String) (s' : Store)
      (h : updateBoard s boardId userId name = .ok s') : Step s s'
  | deleteBoard (s : Store) (boardId userId : String) (s' : Store)
      (h : deleteBoard s boardId userId = .ok s') : Step s s'
  | addMember (s : Store) (boardId actorId targetId : String) (role : Role)
      (m : Membership) (s' : Store)
      (h : addMember s boardId actorId targetId role = .ok (m, s')) : Step s s'
  | updateMemberRole (s : Store) (boardId actorId targetId : String) (newRole : Role)
      (m : Membership) (s' : Store)
      (h : updateMemberRole s boardId actorId targetId newRole = .ok (m, s')) : Step s s'
  | removeMember (s : Store) (boardId actorId targetId : String) (s' : Store)
      (h : removeMember s boardId actorId targetId = .ok s') : Step s s'
  | createTask (s : Store) (boardId userId newTaskId : String) (d : CreateTaskData)
      (t : Task) (s' : Store)
      (h : createTask s boardId userId newTaskId d = .ok (t, s')) : Step s s'
  | updateTask (s : Store) (boardId taskId userId : String) (d : UpdateTaskData)
      (t : Task) (s' : Store)
      (h : updateTask s boardId taskId userId d = .ok (t, s')) : Step s s'
  | deleteTask (s : Store) (boardId taskId userId : String) (s' : Store)
      (h : deleteTask s boardId taskId userId = .ok s') : Step s s'

/-- States reachable from the empty store through service calls. -/
def Reachable (s : Store) : Prop := Relation.ReflTransGen Step Store.empty s

/-- The store invariant: membership (userId, boardId) keys are unique
(the unique index), and every board row retains at least one OWNER
membership. -/
def Inv (s : Store) : Prop :=
  (s.memberships.map membershipKey).Nodup ∧ ∀ b ∈ s.boards, 1 ≤ ownerCount s b.id

/-- Concrete store with one board, a MAINTAINER actor and two OWNERs,
used to evaluate the membership operations on explicit inputs. -/
def storeTwoOwners : Store :=
  { users := [⟨"u1", "a@x.com", "Alice"⟩, ⟨"u2", "b@x.com", "Bob"⟩,
              ⟨"u3", "c@x.com", "Carol"⟩, ⟨"u4", "d@x.com", "Dave"⟩],
    boards := [⟨"b1", "X"⟩],
    memberships := [⟨"u1", "b1", Role.MAINTAINER⟩, ⟨"u2", "b1", Role.OWNER⟩,
                    ⟨"u3", "b1", Role.OWNER⟩],
    tasks := [] }

/-- Concrete store with one board whose sole OWNER is u1, a MEMBER u2,
and one task created by u1. -/
def storeSoleOwner : Store :=
  { users := [⟨"u1", "a@x.com", "Alice"⟩, ⟨"u2", "b@x.com", "Bob"⟩],
    boards := [⟨"b1", "X"⟩],
    memberships := [⟨"u1", "b1", Role.OWNER⟩, ⟨"u2", "b1", Role.MEMBER⟩],
    tasks := [⟨"t1", "T", none, TaskStatus.TODO, "b1", "u1", none⟩] }

/-- The store after registering one user on the empty store. -/
def storeOneUser : Store :=
  { users := [⟨"u1", "a@x.com", "Alice"⟩], boards := [], memberships := [], tasks := [] }

/-- The store after the registered user creates one board: the state
reached from the empty store by register and createBoard. -/
def storeOneBoard : Store :=
  { users := [⟨"u1", "a@x.com", "Alice"⟩], boards := [⟨"b1", "X"⟩],
    memberships := [⟨"u1", "b1", Role.OWNER⟩], tasks := [] }

end Adaboards

namespace Adaboards

theorem findMembership_some {s : Store} {u b : String} {m : Membership}
    (h : findMembership s u b = some m) :
    m ∈ s.memberships ∧ m.userId = u ∧ m.boardId = b := by
  have h1 := List.mem_of_find?_eq_some h
  have h2 := List.find?_some h
  simp only [Bool.and_eq_true, beq_iff_eq] at h2
  exact ⟨h1, h2.1, h2.2⟩

theorem findMembership_none {s : Store} {u b : String}
    (h : findMembership s u b = none) :
    ∀ m ∈ s.memberships, ¬(m.userId = u ∧ m.boardId = b) := by
  intro m hm
  have h2 := List.find?_eq_none.mp h m hm
  simpa using h2

theorem findTask_some {s : Store} {tid b : String} {t : Task}
    (h : findTask s tid b = some t) :
    t ∈ s.tasks ∧ t.id = tid ∧ t.boardId = b := by
  have h1 := List.mem_of_find?_eq_some h
  have h2 := List.find?_some h
  simp only [Bool.and_eq_true, beq_iff_eq] at h2
  exact ⟨h1, h2.1, h2.2⟩

theorem countP_split (p q : α → Bool) (l : List α) :
    l.countP p = (l.countP fun a => p a && q a) + (l.countP fun a => p a && !q a) := by
  induction l with
  | nil => simp
  | cons x t ih =>
    cases hp : p x <;> cases hq : q x <;>
      simp [List.countP_cons, hp, hq, ih] <;> omega

theorem countP_keyMatch_le_one {ms : List Membership}
    (hnd : (ms.map membershipKey).Nodup) (u b : String) :
    (ms.countP fun m => m.userId == u && m.boardId == b) ≤ 1 := by
  induction ms with
  | nil => simp
  | cons m t ih =>
    simp only [List.map_cons, List.nodup_cons] at hnd
    have iht := ih hnd.2
    by_cases hm : (m.userId == u && m.boardId == b) = true
    · have hkey : membershipKey m = (u, b) := by
        simp only [Bool.and_eq_true, beq_iff_eq] at hm
        simp [membershipKey, hm.1, hm.2]
      have hzero : (t.countP fun mm => mm.userId == u && mm.boardId == b) = 0 := by
        rw [List.countP_eq_zero]
        intro mm hmm hmatch
        simp only [Bool.and_eq_true, beq_iff_eq] at hmatch
        exact hnd.1 (by
          rw [hkey]
          exact List.mem_map.mpr ⟨mm, hmm, by simp [membershipKey, hmatch.1, hmatch.2]⟩)
      simp [List.countP_cons, hm, hzero]
    · simp only [List.countP_cons, hm]
      simpa using iht

theorem ownerCountL_pos {ms : List Membership} {m : Membership} {b : String}
    (hm : m ∈ ms) (hb : m.boardId = b) (hr : m.role = Role.OWNER) :
    1 ≤ ownerCountL ms b := by
  have : 0 < ms.countP fun mm => mm.boardId == b && mm.role == Role.OWNER :=
    List.countP_pos_iff.mpr ⟨m, hm, by simp [hb, hr]⟩
  exact this

theorem charsLe_total : ∀ a b : List Char, charsLe a b || charsLe b a := by
  intro a
  induction a with
  | nil => intro b; simp [charsLe]
  | cons x xs ih =>
    intro b
    cases b with
    | nil => simp [charsLe]
    | cons y ys =>
      by_cases hxy : x.toNat = y.toNat
      · have := ih ys
        simp [charsLe, hxy, this]
      · rcases Nat.lt_or_ge x.toNat y.toNat with hlt | hge
        · simp [charsLe, hxy, hlt]
        · have hyx : ¬y.toNat = x.toNat := fun hh => hxy hh.symm
          have hgt : y.toNat < x.toNat := lt_of_le_of_ne hge hyx
          simp [charsLe, hxy, hyx, hgt, Nat.not_lt.mpr hge]

theorem charsLe_trans : ∀ a b c : List Char,
    charsLe a b = true → charsLe b c = true → charsLe a c = true := by
  intro a
  induction a with
  | nil => intro b c _ _; simp [charsLe]
  | cons x xs ih =>
    intro b c hab hbc
    cases b with
    | nil => simp [charsLe] at hab
    | cons y ys =>
      cases c with
      | nil => simp [charsLe] at hbc
      | cons z zs =>
        by_cases hxy : x.toNat = y.toNat
        · by_cases hyz : y.toNat = z.toNat
          · have hxz : x.toNat = z.toNat := hxy.trans hyz
            simp only [charsLe, if_pos hxy] at hab
            simp only [charsLe, if_pos hyz] at hbc
            simp [charsLe, hxz, ih ys zs hab hbc]
          · simp only [charsLe, if_neg hyz, decide_eq_true_eq] at hbc
            have hxz : x.toNat < z.toNat := hxy ▸ hbc
            simp [charsLe, Nat.ne_of_lt hxz, hxz]
        · simp only [charsLe, if_neg hxy, decide_eq_true_eq] at hab
          by_cases hyz : y.toNat = z.toNat
          · have hxz : x.toNat < z.toNat := hyz ▸ hab
            simp [charsLe, Nat.ne_of_lt hxz, hxz]
          · simp only [charsLe, if_neg hyz, decide_eq_true_eq] at hbc
            have hxz : x.toNat < z.toNat := lt_trans hab hbc
            simp [charsLe, Nat.ne_of_lt hxz, hxz]

end Adaboards

namespace Adaboards

theorem addMember_ok {s : Store} {b a t : String} {r : Role} {m : Membership} {s' : Store}
    (h : addMember s b a t r = .ok (m, s')) :
    (∃ cm, findMembership s a b = some cm ∧ ¬cm.role = Role.MEMBER) ∧
      (findUser s t).isSome ∧ findMembership s t b = none ∧
      m = ⟨t, b, r⟩ ∧ s' = { s with memberships := s.memberships ++ [⟨t, b, r⟩] } := by
  unfold addMember at h
  rcases hcm : findMembership s a b with _ | cm <;> simp only [hcm] at h
  · simp at h
  by_cases hrole : cm.role = Role.MEMBER
  · rw [if_pos hrole] at h; simp at h
  rw [if_neg hrole] at h
  rcases hu : findUser s t with _ | u <;> simp only [hu] at h
  · simp at h
  rcases hex : findMembership s t b with _ | ex <;> simp only [hex] at h
  · simp only [Except.ok.injEq, Prod.mk.injEq] at h
    exact ⟨⟨cm, rfl, hrole⟩, by simp, rfl, h.1.symm, h.2.symm⟩
  · simp at h

theorem updateMemberRole_ok {s : Store} {b a t : String} {nr : Role} {m : Membership} {s' : Store}
    (h : updateMemberRole s b a t nr = .ok (m, s')) :
    (∃ cm, findMembership s a b = some cm ∧ ¬cm.role = Role.MEMBER) ∧
      ∃ tm, findMembership s t b = some tm ∧
        ¬(tm.role = Role.OWNER ∧ ownerCount s b = 1) ∧
        m = { tm with role := nr } ∧
        s' = { s with memberships := s.memberships.map fun mm =>
                 if mm.userId == t && mm.boardId == b then { mm with role := nr } else mm } := by
  unfold updateMemberRole at h
  rcases hcm : findMembership s a b with _ | cm <;> simp only [hcm] at h
  · simp at h
  by_cases hrole : cm.role = Role.MEMBER
  · rw [if_pos hrole] at h; simp at h
  rw [if_neg hrole] at h
  rcases htm : findMembership s t b with _ | tm <;> simp only [htm] at h
  · simp at h
  by_cases hlast : tm.role = Role.OWNER ∧ ownerCount s b = 1
  · rw [if_pos hlast] at h; simp at h
  rw [if_neg hlast] at h
  simp only [Except.ok.injEq, Prod.mk.injEq] at h
  exact ⟨⟨cm, rfl, hrole⟩, tm, rfl, hlast, h.1.symm, h.2.symm⟩

theorem removeMember_ok {s : Store} {b a t : String} {s' : Store}
    (h : removeMember s b a t = .ok s') :
    (∃ cm, findMembership s a b = some cm ∧ ¬cm.role = Role.MEMBER) ∧
      ∃ tm, findMembership s t b = some tm ∧
        ¬(tm.role = Role.OWNER ∧ ownerCount s b = 1) ∧
        s' = { s with memberships := s.memberships.filter fun mm =>
                 !(mm.userId == t && mm.boardId == b) } := by
  unfold removeMember at h
  rcases hcm : findMembership s a b with _ | cm <;> simp only [hcm] at h
  · simp at h
  by_cases hrole : cm.role = Role.MEMBER
  · rw [if_pos hrole] at h; simp at h
  rw [if_neg hrole] at h
  rcases htm : findMembership s t b with _ | tm <;> simp only [htm] at h
  · simp at h
  by_cases hlast : tm.role = Role.OWNER ∧ ownerCount s b = 1
  · rw [if_pos hlast] at h; simp at h
  rw [if_neg hlast] at h
  simp only [Except.ok.injEq] at h
  exact ⟨⟨cm, rfl, hrole⟩, tm, rfl, hlast, h.symm⟩

theorem deleteBoard_ok {s : Store} {b u : String} {s' : Store}
    (h : deleteBoard s b u = .ok s') :
    (∃ m, findMembership s u b = some m ∧ m.role = Role.OWNER) ∧
      s' = { s with boards := s.boards.filter fun bd => !(bd.id == b),
                    memberships := s.memberships.filter fun mm => !(mm.boardId == b),
                    tasks := s.tasks.filter fun t => !(t.boardId == b) } := by
  unfold deleteBoard at h
  rcases hm : findMembership s u b with _ | m <;> simp only [hm] at h
  · simp at h
  by_cases hrole : m.role = Role.OWNER
  · rw [if_pos hrole] at h
    simp only [Except.ok.injEq] at h
    exact ⟨⟨m, rfl, hrole⟩, h.symm⟩
  · rw [if_neg hrole] at h; simp at h

theorem updateBoard_ok {s : Store} {b u n : String} {s' : Store}
    (h : updateBoard s b u n = .ok s') :
    s'.memberships = s.memberships ∧ s'.tasks = s.tasks ∧
      s'.boards = s.boards.map fun bd => if bd.id == b then ⟨bd.id, n⟩ else bd := by
  unfold updateBoard at h
  rcases hm : findMembership s u b with _ | m <;> simp only [hm] at h
  · simp at h
  by_cases hrole : m.role = Role.MEMBER
  · rw [if_pos hrole] at h; simp at h
  · rw [if_neg hrole] at h
    simp only [Except.ok.injEq] at h
    rw [← h]
    exact ⟨rfl, rfl, rfl⟩

theorem createTask_frame {s : Store} {b u nt : String} {d : CreateTaskData}
    {t : Task} {s' : Store} (h : createTask s b u nt d = .ok (t, s')) :
    s'.memberships = s.memberships ∧ s'.boards = s.boards := by
  unfold createTask at h
  rcases hm : findMembership s u b with _ | m <;> simp only [hm] at h
  · simp at h
  rcases ha : d.assignedTo with _ | a <;> simp only [ha] at h
  · simp only [Except.ok.injEq, Prod.mk.injEq] at h
    rw [← h.2]; exact ⟨rfl, rfl⟩
  · by_cases he : a = ""
    · rw [if_pos he] at h
      simp only [Except.ok.injEq, Prod.mk.injEq] at h
      rw [← h.2]; exact ⟨rfl, rfl⟩
    · rw [if_neg he] at h
      by_cases hmem : (findMembership s a b).isSome
      · rw [if_pos hmem] at h
        simp only [Except.ok.injEq, Prod.mk.injEq] at h
        rw [← h.2]; exact ⟨rfl, rfl⟩
      · rw [if_neg hmem] at h; simp at h

theorem updateTask_frame {s : Store} {b tid u : String} {d : UpdateTaskData}
    {t : Task} {s' : Store} (h : updateTask s b tid u d = .ok (t, s')) :
    s'.memberships = s.memberships ∧ s'.boards = s.boards := by
  unfold updateTask at h
  rcases hm : findMembership s u b with _ | m <;> simp only [hm] at h
  · simp at h
  rcases ht : findTask s tid b with _ | t0 <;> simp only [ht] at h
  · simp at h
  by_cases hok : assigneeOk s b d = true
  · rw [if_pos hok] at h
    simp only [Except.ok.injEq, Prod.mk.injEq] at h
    rw [← h.2]; exact ⟨rfl, rfl⟩
  · rw [if_neg hok] at h; simp at h

theorem deleteTask_frame {s : Store} {b tid u : String} {s' : Store}
    (h : deleteTask s b tid u = .ok s') :
    s'.memberships = s.memberships ∧ s'.boards = s.boards := by
  unfold deleteTask at h
  rcases hm : findMembership s u b with _ | m <;> simp only [hm] at h
  · simp at h
  rcases ht : findTask s tid b with _ | t0 <;> simp only [ht] at h
  · simp at h
  by_cases hcan : (t0.createdBy == u || m.role == Role.OWNER || m.role == Role.MAINTAINER) = true
  · rw [if_pos hcan] at h
    simp only [Except.ok.injEq] at h
    rw [← h]; exact ⟨rfl, rfl⟩
  · rw [if_neg hcan] at h; simp at h


theorem inv_empty : Inv Store.empty := by
  constructor
  · simp [Store.empty]
  · intro b hb
    simp [Store.empty] at hb

theorem inv_frame {s s' : Store} (hm : s'.memberships = s.memberships)
    (hb : s'.boards = s.boards) (hI : Inv s) : Inv s' := by
  unfold Inv ownerCount at *
  rw [hm, hb]
  exact hI

theorem ownerCountL_append (ms₁ ms₂ : List Membership) (b : String) :
    ownerCountL (ms₁ ++ ms₂) b = ownerCountL ms₁ b + ownerCountL ms₂ b :=
  List.countP_append _ _ _

theorem ownerCountL_map_other {ms : List Membership} {t b b' : String} {nr : Role}
    (hne : b' ≠ b) :
    ownerCountL (ms.map fun mm =>
      if mm.userId == t && mm.boardId == b then { mm with role := nr } else mm) b'
      = ownerCountL ms b' := by
  unfold ownerCountL
  rw [List.countP_map]
  apply List.countP_congr
  intro m _
  simp only [Function.comp]
  by_cases hc : (m.userId == t && m.boardId == b) = true
  · rw [if_pos hc]
    simp only [Bool.and_eq_true, beq_iff_eq] at hc
    have hbb : (m.boardId == b') = false := by
      rw [hc.2]; exact beq_eq_false_iff_ne.mpr (Ne.symm hne)
    simp [hbb]
  · rw [if_neg hc]

theorem ownerCountL_map_target_not_owner {ms : List Membership} {t b : String} {nr : Role}
    (hno : ∀ m ∈ ms, m.userId = t → m.boardId = b → ¬m.role = Role.OWNER) :
    ownerCountL ms b ≤ ownerCountL (ms.map fun mm =>
      if mm.userId == t && mm.boardId == b then { mm with role := nr } else mm) b := by
  unfold ownerCountL
  rw [List.countP_map]
  apply List.countP_mono_left
  intro m hm hp
  simp only [Function.comp]
  by_cases hc : (m.userId == t && m.boardId == b) = true
  · exfalso
    simp only [Bool.and_eq_true, beq_iff_eq] at hc hp
    exact hno m hm hc.1 hc.2 hp.2
  · rw [if_neg hc]; exact hp

theorem ownerCountL_map_general {ms : List Membership} {t b : String} {nr : Role}
    (hnd : (ms.map membershipKey).Nodup) :
    ownerCountL ms b - 1 ≤ ownerCountL (ms.map fun mm =>
      if mm.userId == t && mm.boardId == b then { mm with role := nr } else mm) b := by
  unfold ownerCountL
  rw [List.countP_map]
  have hsplit := countP_split (fun m : Membership => m.boardId == b && m.role == Role.OWNER)
    (fun m : Membership => m.userId == t && m.boardId == b) ms
  have hkey2 : (ms.countP fun m => (m.boardId == b && m.role == Role.OWNER)
      && (m.userId == t && m.boardId == b)) ≤ 1 := by
    calc (ms.countP fun m => (m.boardId == b && m.role == Role.OWNER)
        && (m.userId == t && m.boardId == b))
        ≤ ms.countP fun m => m.userId == t && m.boardId == b := by
          apply List.countP_mono_left
          intro m _ hp
          simp only [Bool.and_eq_true] at hp
          simp [hp.2.1, hp.2.2]
      _ ≤ 1 := countP_keyMatch_le_one hnd t b
  have hmono : (ms.countP fun m => (m.boardId == b && m.role == Role.OWNER)
      && !(m.userId == t && m.boardId == b))
      ≤ ms.countP ((fun m : Membership => m.boardId == b && m.role == Role.OWNER) ∘
        fun mm => if mm.userId == t && mm.boardId == b then { mm with role := nr } else mm) := by
    apply List.countP_mono_left
    intro m _ hp
    simp only [Bool.and_eq_true, Bool.not_eq_eq_eq_not, Bool.not_true] at hp
    simp only [Function.comp]
    have hc : ¬(m.userId == t && m.boardId == b) = true := by
      rw [hp.2]; exact Bool.false_ne_true
    rw [if_neg hc]
    simp [hp.1.1, hp.1.2]
  omega

theorem ownerCountL_filter_other {ms : List Membership} {t b b' : String} (hne : b' ≠ b) :
    ownerCountL (ms.filter fun mm => !(mm.userId == t && mm.boardId == b)) b'
      = ownerCountL ms b' := by
  unfold ownerCountL
  rw [List.countP_filter]
  apply List.countP_congr
  intro m _
  by_cases hb : (m.boardId == b') = true
  · have hkey : (m.userId == t && m.boardId == b) = false := by
      simp only [beq_iff_eq] at hb
      have : (m.boardId == b) = false := by
        rw [hb]; exact beq_eq_false_iff_ne.mpr hne
      simp [this]
    simp [hkey, hb]
  · have hb' : (m.boardId == b') = false := by
      cases hbb : (m.boardId == b') with
      | false => rfl
      | true => exact absurd hbb hb
    simp [hb']

theorem ownerCountL_filter_target_not_owner {ms : List Membership} {t b : String}
    (hno : ∀ m ∈ ms, m.userId = t → m.boardId = b → ¬m.role = Role.OWNER) :
    ownerCountL ms b ≤ ownerCountL (ms.filter fun mm => !(mm.userId == t && mm.boardId == b)) b := by
  unfold ownerCountL
  rw [List.countP_filter]
  apply List.countP_mono_left
  intro m hm hp
  have hc : (m.userId == t && m.boardId == b) = false := by
    simp only [Bool.and_eq_true, beq_iff_eq] at hp
    cases hcc : (m.userId == t && m.boardId == b) with
    | false => rfl
    | true =>
      exfalso
      simp only [Bool.and_eq_true, beq_iff_eq] at hcc
      exact hno m hm hcc.1 hcc.2 hp.2
  simp [hp, hc]

theorem ownerCountL_filter_general {ms : List Membership} {t b : String}
    (hnd : (ms.map membershipKey).Nodup) :
    ownerCountL ms b - 1
      ≤ ownerCountL (ms.filter fun mm => !(mm.userId == t && mm.boardId == b)) b := by
  unfold ownerCountL
  rw [List.countP_filter]
  have hsplit := countP_split (fun m : Membership => m.boardId == b && m.role == Role.OWNER)
    (fun m : Membership => m.userId == t && m.boardId == b) ms
  have hkey2 : (ms.countP fun m => (m.boardId == b && m.role == Role.OWNER)
      && (m.userId == t && m.boardId == b)) ≤ 1 := by
    calc (ms.countP fun m => (m.boardId == b && m.role == Role.OWNER)
        && (m.userId == t && m.boardId == b))
        ≤ ms.countP fun m => m.userId == t && m.boardId == b := by
          apply List.countP_mono_left
          intro m _ hp
          simp only [Bool.and_eq_true] at hp
          simp [hp.2.1, hp.2.2]
      _ ≤ 1 := countP_keyMatch_le_one hnd t b
  omega

theorem nodupKeys_append_one {ms : List Membership} {m : Membership}
    (hnd : (ms.map membershipKey).Nodup)
    (hnotin : ∀ mm ∈ ms, membershipKey mm ≠ membershipKey m) :
    ((ms ++ [m]).map membershipKey).Nodup := by
  rw [List.map_append, List.nodup_append]
  refine ⟨hnd, by simp, ?_⟩
  intro x hx
  rcases List.mem_map.mp hx with ⟨mm, hmm, rfl⟩
  simp only [List.map_cons, List.map_nil, List.mem_singleton]
  exact hnotin mm hmm

theorem keys_map_roleUpdate (ms : List Membership) (t b : String) (nr : Role) :
    ((ms.map fun mm =>
        if mm.userId == t && mm.boardId == b then { mm with role := nr } else mm).map
      membershipKey) = ms.map membershipKey := by
  rw [List.map_map]
  apply List.map_congr_left
  intro m _
  simp only [Function.comp]
  by_cases hc : (m.userId == t && m.boardId == b) = true
  · rw [if_pos hc]
    rfl
  · rw [if_neg hc]

theorem nodupKeys_filter {ms : List Membership} {p : Membership → Bool}
    (hnd : (ms.map membershipKey).Nodup) :
    ((ms.filter p).map membershipKey).Nodup :=
  List.Nodup.sublist (List.Sublist.map membershipKey (List.filter_sublist ms)) hnd

theorem inv_step {s s' : Store} (hstep : Step s s') (hI : Inv s) : Inv s' := by
  cases hstep with
  | register u hid hemail => exact inv_frame rfl rfl hI
  | createBoard name uid nb hfresh =>
    refine ⟨?_, ?_⟩
    · show ((s.memberships ++ [Membership.mk uid nb Role.OWNER]).map membershipKey).Nodup
      apply nodupKeys_append_one hI.1
      intro mm hmm hkey
      exact hfresh.2.1 mm hmm (congrArg Prod.snd hkey)
    · intro bd hbd
      show 1 ≤ ownerCountL (s.memberships ++ [Membership.mk uid nb Role.OWNER]) bd.id
      rcases List.mem_append.mp hbd with hin | hnew
      · rw [ownerCountL_append]
        have hin2 := hI.2 bd hin
        unfold ownerCount at hin2
        omega
      · simp only [List.mem_singleton] at hnew
        subst hnew
        exact ownerCountL_pos (List.mem_append_right _ (List.mem_singleton.mpr rfl)) rfl rfl
  | updateBoard bId uId nm s' h =>
    obtain ⟨hm, ht, hb⟩ := updateBoard_ok h
    refine ⟨?_, ?_⟩
    · rw [hm]; exact hI.1
    · intro bd hbd
      rw [hb] at hbd
      rcases List.mem_map.mp hbd with ⟨bd0, hbd0, rfl⟩
      have hid : (if bd0.id == bId then (⟨bd0.id, nm⟩ : Board) else bd0).id = bd0.id := by
        by_cases hc : (bd0.id == bId) = true
        · rw [if_pos hc]
        · rw [if_neg hc]
      show 1 ≤ ownerCountL s'.memberships _
      rw [hm, hid]
      exact hI.2 bd0 hbd0
  | deleteBoard bId uId s' h =>
    obtain ⟨⟨m, hm, hrole⟩, hs'⟩ := deleteBoard_ok h
    subst hs'
    refine ⟨nodupKeys_filter hI.1, ?_⟩
    intro bd hbd
    have hmem := List.mem_filter.mp hbd
    have hne : bd.id ≠ bId := by
      have h2 := hmem.2
      simp only [Bool.not_eq_eq_eq_not, Bool.not_true, beq_eq_false_iff_ne] at h2
      exact h2
    show 1 ≤ ownerCountL (s.memberships.filter fun mm => !(mm.boardId == bId)) bd.id
    unfold ownerCountL
    rw [List.countP_filter]
    have hco : (s.memberships.countP fun mm =>
        (mm.boardId == bd.id && mm.role == Role.OWNER) && !(mm.boardId == bId))
        = s.memberships.countP fun mm => mm.boardId == bd.id && mm.role == Role.OWNER := by
      apply List.countP_congr
      intro mm _
      by_cases hc : (mm.boardId == bd.id) = true
      · simp only [beq_iff_eq] at hc
        have hff : (mm.boardId == bId) = false := by
          rw [hc]; exact beq_eq_false_iff_ne.mpr hne
        simp only [hff, hc]
        simp
        exact fun _ => hne
      · simp [hc]
    rw [hco]
    exact hI.2 bd hmem.1
  | addMember bId aId tId role m s' h =>
    obtain ⟨⟨cm, hcm, hcmr⟩, hu, hnone, hmv, hs'⟩ := addMember_ok h
    subst hs'
    refine ⟨?_, ?_⟩
    · apply nodupKeys_append_one hI.1
      intro mm hmm hkey
      exact findMembership_none hnone mm hmm
        ⟨congrArg Prod.fst hkey, congrArg Prod.snd hkey⟩
    · intro bd hbd
      show 1 ≤ ownerCountL (s.memberships ++ [Membership.mk tId bId role]) bd.id
      rw [ownerCountL_append]
      have hbd2 := hI.2 bd hbd
      unfold ownerCount at hbd2
      omega
  | updateMemberRole bId aId tId nr m s' h =>
    obtain ⟨⟨cm, hcm, hcmr⟩, tm, htm, hlast, hmval, hs'⟩ := updateMemberRole_ok h
    subst hs'
    obtain ⟨htmem, htu, htb⟩ := findMembership_some htm
    refine ⟨?_, ?_⟩
    · show (((s.memberships.map fun mm =>
          if mm.userId == tId && mm.boardId == bId then { mm with role := nr } else mm).map
        membershipKey)).Nodup
      rw [keys_map_roleUpdate]
      exact hI.1
    · intro bd hbd
      show 1 ≤ ownerCountL (s.memberships.map fun mm =>
          if mm.userId == tId && mm.boardId == bId then { mm with role := nr } else mm) bd.id
      by_cases hbeq : bd.id = bId
      · rw [hbeq]
        by_cases htmr : tm.role = Role.OWNER
        · have h1 : ownerCount s bId ≠ 1 := fun hc => hlast ⟨htmr, hc⟩
          have h2 : 1 ≤ ownerCountL s.memberships bId :=
            ownerCountL_pos htmem htb htmr
          have h3 : 2 ≤ ownerCountL s.memberships bId := by
            unfold ownerCount at h1
            omega
          have h4 := @ownerCountL_map_general s.memberships tId bId nr hI.1
          omega
        · have hno : ∀ mm ∈ s.memberships, mm.userId = tId → mm.boardId = bId →
              ¬mm.role = Role.OWNER := by
            intro mm hmm h1 h2
            have hmmtm : mm = tm := by
              apply List.inj_on_of_nodup_map hI.1 hmm htmem
              simp [membershipKey, h1, h2, htu, htb]
            rw [hmmtm]
            exact htmr
          have h4 := @ownerCountL_map_target_not_owner s.memberships tId bId nr hno
          have h5 := hI.2 bd hbd
          rw [hbeq] at h5
          unfold ownerCount at h5
          omega
      · rw [ownerCountL_map_other hbeq]
        exact hI.2 bd hbd
  | removeMember bId aId tId s' h =>
    obtain ⟨⟨cm, hcm, hcmr⟩, tm, htm, hlast, hs'⟩ := removeMember_ok h
    subst hs'
    obtain ⟨htmem, htu, htb⟩ := findMembership_some htm
    refine ⟨nodupKeys_filter hI.1, ?_⟩
    intro bd hbd
    show 1 ≤ ownerCountL (s.memberships.filter fun mm =>
        !(mm.userId == tId && mm.boardId == bId)) bd.id
    by_cases hbeq : bd.id = bId
    · rw [hbeq]
      by_cases htmr : tm.role = Role.OWNER
      · have h1 : ownerCount s bId ≠ 1 := fun hc => hlast ⟨htmr, hc⟩
        have h2 : 1 ≤ ownerCountL s.memberships bId :=
          ownerCountL_pos htmem htb htmr
        have h3 : 2 ≤ ownerCountL s.memberships bId := by
          unfold ownerCount at h1
          omega
        have h4 := @ownerCountL_filter_general s.memberships tId bId hI.1
        omega
      · have hno : ∀ mm ∈ s.memberships, mm.userId = tId → mm.boardId = bId →
            ¬mm.role = Role.OWNER := by
          intro mm hmm h1 h2
          have hmmtm : mm = tm := by
            apply List.inj_on_of_nodup_map hI.1 hmm htmem
            simp [membershipKey, h1, h2, htu, htb]
          rw [hmmtm]
          exact htmr
        have h4 := ownerCountL_filter_target_not_owner hno
        have h5 := hI.2 bd hbd
        rw [hbeq] at h5
        unfold ownerCount at h5
        omega
    · rw [ownerCountL_filter_other hbeq]
      exact hI.2 bd hbd
  | createTask bId uId tid d t s' h =>
    obtain ⟨h1, h2⟩ := createTask_frame h
    exact inv_frame h1 h2 hI
  | updateTask bId tid uId d t s' h =>
    obtain ⟨h1, h2⟩ := updateTask_frame h
    exact inv_frame h1 h2 hI
  | deleteTask bId tid uId s' h =>
    obtain ⟨h1, h2⟩ := deleteTask_frame h
    exact inv_frame h1 h2 hI

theorem inv_reachable {s : Store} (h : Reachable s) : Inv s := by
  unfold Reachable at h
  induction h with
  | refl => exact inv_empty
  | tail _ hstep ih => exact inv_step hstep ih

/-- C1: in every state reachable from the empty store through the
service operations, every board row that has not been deleted retains
at least one Membership with role OWNER. -/
theorem claim1_last_owner_invariant (s : Store) (hs : Reachable s) :
    ∀ b ∈ s.boards, 1 ≤ ownerCount s b.id :=
  (inv_reachable hs).2

theorem claim1_last_owner_invariant_witness :
    Reachable storeOneBoard ∧ Board.mk "b1" "X" ∈ storeOneBoard.boards ∧
      1 ≤ ownerCount storeOneBoard "b1" :=
  have h1 : Step Store.empty storeOneUser :=
    Step.register Store.empty ⟨"u1", "a@x.com", "Alice"⟩ rfl rfl
  have h2 : Step storeOneUser storeOneBoard :=
    Step.createBoard storeOneUser "X" "u1" "b1" (by decide)
  have hr : Reachable storeOneBoard :=
    Relation.ReflTransGen.tail (Relation.ReflTransGen.single h1) h2
  ⟨hr, by decide,
    claim1_last_owner_invariant storeOneBoard hr (Board.mk "b1" "X") (by decide)⟩

/-- C5: on a board with two OWNER memberships, a MAINTAINER actor
removing an OWNER target succeeds and deletes the target membership —
acting on an OWNER target is gated only by the OWNER-count check, not
by an actor-versus-target role comparison. -/
theorem claim5_maintainer_removes_co_owner :
    findMembership storeTwoOwners "u1" "b1" = some ⟨"u1", "b1", Role.MAINTAINER⟩ ∧
    findMembership storeTwoOwners "u2" "b1" = some ⟨"u2", "b1", Role.OWNER⟩ ∧
    2 ≤ ownerCount storeTwoOwners "b1" ∧
    removeMember storeTwoOwners "b1" "u1" "u2" = .ok { storeTwoOwners with
      memberships := [⟨"u1", "b1", Role.MAINTAINER⟩, ⟨"u3", "b1", Role.OWNER⟩] } ∧
    findMembership { storeTwoOwners with
      memberships := [⟨"u1", "b1", Role.MAINTAINER⟩, ⟨"u3", "b1", Role.OWNER⟩] }
      "u2" "b1" = none := by
  refine ⟨by decide, by decide, by decide, by decide, by decide⟩

/-- C2: with a manager actor (OWNER or MAINTAINER) and an existing
target membership, updateMemberRole and removeMember fail with the
last-owner message — Forbidden (403) under the controller dispatch —
exactly when the target is an OWNER and the board has exactly one
OWNER; in every other case both calls succeed. -/
theorem claim2_sole_owner_protection (s : Store) (b a t : String) (nr : Role)
    (am tm : Membership)
    (ha : findMembership s a b = some am)
    (har : am.role = Role.OWNER ∨ am.role = Role.MAINTAINER)
    (ht : findMembership s t b = some tm) :
    (tm.role = Role.OWNER ∧ ownerCount s b = 1 →
      updateMemberRole s b a t nr = .error (.plainE msgLastOwnerChange) ∧
      removeMember s b a t = .error (.plainE msgLastOwnerRemove) ∧
      memberMutateStatus msgLastOwnerChange = 403 ∧
      memberMutateStatus msgLastOwnerRemove = 403) ∧
    (¬(tm.role = Role.OWNER ∧ ownerCount s b = 1) →
      (updateMemberRole s b a t nr).isOk = true ∧
      (removeMember s b a t).isOk = true) := by
  have hmem : ¬am.role = Role.MEMBER := by
    rcases har with h | h <;> simp [h]
  constructor
  · intro hlast
    refine ⟨?_, ?_, by decide, by decide⟩
    · unfold updateMemberRole
      simp only [ha, ht]
      rw [if_neg hmem, if_pos hlast]
    · unfold removeMember
      simp only [ha, ht]
      rw [if_neg hmem, if_pos hlast]
  · intro hn
    constructor
    · unfold updateMemberRole
      simp only [ha, ht]
      rw [if_neg hmem, if_neg hn]
      rfl
    · unfold removeMember
      simp only [ha, ht]
      rw [if_neg hmem, if_neg hn]
      rfl

theorem claim2_sole_owner_protection_witness :
    (updateMemberRole storeSoleOwner "b1" "u1" "u1" Role.MEMBER
        = .error (.plainE msgLastOwnerChange) ∧
      removeMember storeSoleOwner "b1" "u1" "u1" = .error (.plainE msgLastOwnerRemove) ∧
      memberMutateStatus msgLastOwnerChange = 403 ∧
      memberMutateStatus msgLastOwnerRemove = 403) ∧
    ((updateMemberRole storeTwoOwners "b1" "u1" "u2" Role.MEMBER).isOk = true ∧
      (removeMember storeTwoOwners "b1" "u1" "u2").isOk = true) :=
  ⟨(claim2_sole_owner_protection storeSoleOwner "b1" "u1" "u1" Role.MEMBER
      ⟨"u1", "b1", Role.OWNER⟩ ⟨"u1", "b1", Role.OWNER⟩
      (by decide) (Or.inl rfl) (by decide)).1 ⟨rfl, by decide⟩,
   (claim2_sole_owner_protection storeTwoOwners "b1" "u1" "u2" Role.MEMBER
      ⟨"u1", "b1", Role.MAINTAINER⟩ ⟨"u2", "b1", Role.OWNER⟩
      (by decide) (Or.inr rfl) (by decide)).2 (by decide)⟩

/-- C3: with the caller holding a membership and the task existing on
the board, deleteTask succeeds exactly when the caller created the task
or holds the OWNER or MAINTAINER role; otherwise it fails with the
ForbiddenError of the source (and, the error being raised before the
delete statement, no store mutation is produced). -/
theorem claim3_delete_task_permission (s : Store) (b tid u : String)
    (m : Membership) (t : Task)
    (hm : findMembership s u b = some m) (ht : findTask s tid b = some t) :
    ((deleteTask s b tid u).isOk = true ↔
      (t.createdBy = u ∨ m.role = Role.OWNER ∨ m.role = Role.MAINTAINER)) ∧
    (¬(t.createdBy = u ∨ m.role = Role.OWNER ∨ m.role = Role.MAINTAINER) →
      deleteTask s b tid u = .error (.forbiddenE msgDeleteTaskForbidden)) := by
  unfold deleteTask
  simp only [hm, ht]
  by_cases hcan : (t.createdBy == u || m.role == Role.OWNER
      || m.role == Role.MAINTAINER) = true
  · rw [if_pos hcan]
    simp only [Bool.or_eq_true, beq_iff_eq] at hcan
    refine ⟨⟨fun _ => by tauto, fun _ => rfl⟩, fun hno => absurd (by tauto) hno⟩
  · rw [if_neg hcan]
    simp only [Bool.or_eq_true, beq_iff_eq] at hcan
    refine ⟨⟨fun hfalse => absurd hfalse (by decide), fun hor => absurd ?_ hcan⟩,
      fun _ => rfl⟩
    tauto

theorem claim3_delete_task_permission_witness :
    deleteTask storeSoleOwner "b1" "t1" "u2" = .error (.forbiddenE msgDeleteTaskForbidden) ∧
      (deleteTask storeSoleOwner "b1" "t1" "u1").isOk = true :=
  ⟨(claim3_delete_task_permission storeSoleOwner "b1" "t1" "u2"
      ⟨"u2", "b1", Role.MEMBER⟩ ⟨"t1", "T", none, TaskStatus.TODO, "b1", "u1", none⟩
      (by decide) (by decide)).2 (by decide),
   (claim3_delete_task_permission storeSoleOwner "b1" "t1" "u1"
      ⟨"u1", "b1", Role.OWNER⟩ ⟨"t1", "T", none, TaskStatus.TODO, "b1", "u1", none⟩
      (by decide) (by decide)).1.mpr (Or.inl rfl)⟩

/-- C4: every board-scoped operation that first resolves the caller
membership fails with the NotFound-kind board-not-found error when the
caller holds no membership for the board id — whether or not the board
exists — and never with a Forbidden kind: the typed services raise
NotFoundError (mapped to 404, not 403), and the membership service
message is dispatched to 404 by every membership controller route. -/
theorem claim4_no_membership_not_found (s : Store) (b u : String)
    (h : findMembership s u b = none) :
    getBoard s b u = .error (.notFoundE msgBoardNotFound) ∧
    (∀ nm, updateBoard s b u nm = .error (.notFoundE msgBoardNotFound)) ∧
    deleteBoard s b u = .error (.notFoundE msgBoardNotFound) ∧
    getBoardTasks s b u = .error (.notFoundE msgBoardNotFound) ∧
    (∀ nt d, createTask s b u nt d = .error (.notFoundE msgBoardNotFound)) ∧
    (∀ tid d, updateTask s b tid u d = .error (.notFoundE msgBoardNotFound)) ∧
    (∀ tid, deleteTask s b tid u = .error (.notFoundE msgBoardNotFound)) ∧
    getBoardMembers s b u = .error (.plainE msgBoardNotFound) ∧
    (∀ t r, addMember s b u t r = .error (.plainE msgBoardNotFound)) ∧
    (∀ t nr, updateMemberRole s b u t nr = .error (.plainE msgBoardNotFound)) ∧
    (∀ t, removeMember s b u t = .error (.plainE msgBoardNotFound)) ∧
    mapErrorStatus (.notFoundE msgBoardNotFound) = 404 ∧
    mapErrorStatus (.notFoundE msgBoardNotFound) ≠ 403 ∧
    memberListStatus msgBoardNotFound = 404 ∧
    addMemberStatus msgBoardNotFound = 404 ∧
    memberMutateStatus msgBoardNotFound = 404 := by
  refine ⟨?_, fun nm => ?_, ?_, ?_, fun nt d => ?_, fun tid d => ?_, fun tid => ?_,
    ?_, fun t r => ?_, fun t nr => ?_, fun t => ?_,
    by decide, by decide, by decide, by decide, by decide⟩
  · unfold getBoard; simp only [h]
  · unfold updateBoard; simp only [h]
  · unfold deleteBoard; simp only [h]
  · unfold getBoardTasks verifyBoardAccess; simp only [h]
  · unfold createTask; simp only [h]
  · unfold updateTask; simp only [h]
  · unfold deleteTask; simp only [h]
  · unfold getBoardMembers; simp only [h]
  · unfold addMember; simp only [h]
  · unfold updateMemberRole; simp only [h]
  · unfold removeMember; simp only [h]

theorem claim4_no_membership_not_found_witness :
    findMembership storeSoleOwner "u9" "b1" = none ∧
      getBoard storeSoleOwner "b1" "u9" = .error (.notFoundE msgBoardNotFound) ∧
      removeMember storeSoleOwner "b1" "u9" "u1" = .error (.plainE msgBoardNotFound) ∧
      memberMutateStatus msgBoardNotFound = 404 :=
  have hc := claim4_no_membership_not_found storeSoleOwner "b1" "u9" (by decide)
  ⟨by decide, hc.1, hc.2.2.2.2.2.2.2.2.2.2.1 "u1", hc.2.2.2.2.2.2.2.2.2.2.2.2.2.2.2⟩

/-- C6: createBoard adds exactly one Board row and exactly one
Membership(actor, board, OWNER) — with a fresh generated board id the
new board carries exactly one membership, the OWNER one — and it does
so in a single store operation (the nested create of the source runs
in one transaction), embedded as the single transition
Step.createBoard: no intermediate state separates the board from its
OWNER membership. -/
theorem claim6_create_board (s : Store) (name uid nb : String)
    (hfresh : boardIdFresh s nb) :
    (createBoard s name uid nb).2.boards = s.boards ++ [⟨nb, name⟩] ∧
    (createBoard s name uid nb).2.memberships
      = s.memberships ++ [⟨uid, nb, Role.OWNER⟩] ∧
    ((createBoard s name uid nb).2.boards.countP fun bd => bd.id == nb) = 1 ∧
    ((createBoard s name uid nb).2.memberships.countP fun mm => mm.boardId == nb) = 1 ∧
    findMembership (createBoard s name uid nb).2 uid nb = some ⟨uid, nb, Role.OWNER⟩ ∧
    ownerCount (createBoard s name uid nb).2 nb = 1 ∧
    Step s (createBoard s name uid nb).2 := by
  refine ⟨rfl, rfl, ?_, ?_, ?_, ?_, Step.createBoard s name uid nb hfresh⟩
  · show ((s.boards ++ [Board.mk nb name]).countP fun bd => bd.id == nb) = 1
    rw [List.countP_append]
    have h0 : (s.boards.countP fun bd => bd.id == nb) = 0 := by
      rw [List.countP_eq_zero]
      intro bd hbd
      simp only [beq_iff_eq]
      exact hfresh.1 bd hbd
    simp [h0]
  · show ((s.memberships ++ [Membership.mk uid nb Role.OWNER]).countP
        fun mm => mm.boardId == nb) = 1
    rw [List.countP_append]
    have h0 : (s.memberships.countP fun mm => mm.boardId == nb) = 0 := by
      rw [List.countP_eq_zero]
      intro mm hmm
      simp only [beq_iff_eq]
      exact hfresh.2.1 mm hmm
    simp [h0]
  · show ((s.memberships ++ [Membership.mk uid nb Role.OWNER]).find?
        fun m => m.userId == uid && m.boardId == nb) = some ⟨uid, nb, Role.OWNER⟩
    rw [List.find?_append]
    have h0 : (s.memberships.find? fun m => m.userId == uid && m.boardId == nb) = none := by
      rw [List.find?_eq_none]
      intro m hm hp
      simp only [Bool.and_eq_true, beq_iff_eq] at hp
      exact hfresh.2.1 m hm hp.2
    rw [h0]
    simp
  · show ownerCountL (s.memberships ++ [Membership.mk uid nb Role.OWNER]) nb = 1
    rw [ownerCountL_append]
    have h0 : ownerCountL s.memberships nb = 0 := by
      unfold ownerCountL
      rw [List.countP_eq_zero]
      intro m hm hp
      simp only [Bool.and_eq_true, beq_iff_eq] at hp
      exact hfresh.2.1 m hm hp.1
    rw [h0]
    simp [ownerCountL]

theorem claim6_create_board_witness :
    boardIdFresh storeSoleOwner "b2" ∧
      (createBoard storeSoleOwner "Y" "u1" "b2").2.memberships
        = storeSoleOwner.memberships ++ [⟨"u1", "b2", Role.OWNER⟩] ∧
      ownerCount (createBoard storeSoleOwner "Y" "u1" "b2").2 "b2" = 1 :=
  have hc := claim6_create_board storeSoleOwner "Y" "u1" "b2" (by decide)
  ⟨by decide, hc.2.1, hc.2.2.2.2.2.1⟩

/-- C7: membership (userId, boardId) keys stay pairwise distinct in
every reachable state; addMember by a manager actor on an existing
target user who already holds a membership fails with the
already-a-member Conflict (409) without touching the store; and the
checks run in source order — a MEMBER actor fails first regardless of
the target, and a missing target user fails NotFound (404) before the
already-member check. -/
theorem claim7_add_member_conflict :
    (∀ s : Store, Reachable s → (s.memberships.map membershipKey).Nodup) ∧
    (∀ (s : Store) (b a t : String) (r : Role) (cm : Membership),
      findMembership s a b = some cm → ¬cm.role = Role.MEMBER →
      (findUser s t).isSome = true → (findMembership s t b).isSome = true →
      addMember s b a t r = .error (.plainE msgAlreadyMember) ∧
      addMemberStatus msgAlreadyMember = 409) ∧
    (∀ (s : Store) (b a t : String) (r : Role) (cm : Membership),
      findMembership s a b = some cm → cm.role = Role.MEMBER →
      addMember s b a t r = .error (.plainE msgOnlyManagersAddMembers)) ∧
    (∀ (s : Store) (b a t : String) (r : Role) (cm : Membership),
      findMembership s a b = some cm → ¬cm.role = Role.MEMBER →
      findUser s t = none →
      addMember s b a t r = .error (.plainE msgUserNotFound) ∧
      addMemberStatus msgUserNotFound = 404) := by
  refine ⟨fun s hs => (inv_reachable hs).1, ?_, ?_, ?_⟩
  · intro s b a t r cm ha hrole hu hex
    obtain ⟨u, hu'⟩ := Option.isSome_iff_exists.mp hu
    obtain ⟨ex, hex'⟩ := Option.isSome_iff_exists.mp hex
    refine ⟨?_, by decide⟩
    unfold addMember
    simp only [ha, hu', hex']
    rw [if_neg hrole]
  · intro s b a t r cm ha hrole
    unfold addMember
    simp only [ha]
    rw [if_pos hrole]
  · intro s b a t r cm ha hrole hu
    refine ⟨?_, by decide⟩
    unfold addMember
    simp only [ha, hu]
    rw [if_neg hrole]

theorem claim7_add_member_conflict_witness :
    (Store.empty.memberships.map membershipKey).Nodup ∧
      addMember storeSoleOwner "b1" "u1" "u2" Role.MEMBER
        = .error (.plainE msgAlreadyMember) ∧
      addMemberStatus msgAlreadyMember = 409 :=
  ⟨claim7_add_member_conflict.1 Store.empty Relation.ReflTransGen.refl,
   (claim7_add_member_conflict.2.1 storeSoleOwner "b1" "u1" "u2" Role.MEMBER
      ⟨"u1", "b1", Role.OWNER⟩ (by decide) (by decide) (by decide) (by decide)).1,
   (claim7_add_member_conflict.2.1 storeSoleOwner "b1" "u1" "u2" Role.MEMBER
      ⟨"u1", "b1", Role.OWNER⟩ (by decide) (by decide) (by decide) (by decide)).2⟩

/-- C9: addMember gates only on the actor not being a MEMBER, so a
MAINTAINER actor may assign any role, including OWNER: with an
existing non-member target user, addMember with role OWNER succeeds
and creates the OWNER membership. -/
theorem claim9_maintainer_adds_owner (s : Store) (b a t : String)
    (cm : Membership) (u : User)
    (ha : findMembership s a b = some cm) (hr : cm.role = Role.MAINTAINER)
    (hu : findUser s t = some u) (hnm : findMembership s t b = none) :
    addMember s b a t Role.OWNER
      = .ok (⟨t, b, Role.OWNER⟩,
             { s with memberships := s.memberships ++ [⟨t, b, Role.OWNER⟩] }) := by
  unfold addMember
  simp only [ha, hu, hnm]
  rw [if_neg (by simp [hr])]

theorem claim9_maintainer_adds_owner_witness :
    addMember storeTwoOwners "b1" "u1" "u4" Role.OWNER
      = .ok (⟨"u4", "b1", Role.OWNER⟩,
             { storeTwoOwners with
                 memberships := storeTwoOwners.memberships
                   ++ [⟨"u4", "b1", Role.OWNER⟩] }) :=
  claim9_maintainer_adds_owner storeTwoOwners "b1" "u1" "u4"
    ⟨"u1", "b1", Role.MAINTAINER⟩ ⟨"u4", "d@x.com", "Dave"⟩
    (by decide) rfl (by decide) (by decide)

/-- C10: updateTask is permitted for any caller holding any membership
on the board — its success condition is exactly membership, task
existence and assignee validity, mentioning neither the caller role
nor the task creator — and on success the partial update is applied,
in contrast to the creator-or-privileged-role rule of deleteTask. -/
theorem claim10_update_task_no_role_check (s : Store) (b tid u : String)
    (d : UpdateTaskData) :
    ((updateTask s b tid u d).isOk = true ↔
      (findMembership s u b).isSome = true ∧ (findTask s tid b).isSome = true ∧
        assigneeOk s b d = true) ∧
    (∀ m, findMembership s u b = some m → ∀ t, findTask s tid b = some t →
      assigneeOk s b d = true →
      updateTask s b tid u d = .ok (applyTaskUpdate d t,
        { s with tasks := s.tasks.map fun x =>
            if x.id == tid then applyTaskUpdate d x else x })) := by
  constructor
  · unfold updateTask
    rcases hm : findMembership s u b with _ | m
    · simp [Except.isOk, Except.toBool]
    rcases ht : findTask s tid b with _ | t
    · simp [Except.isOk, Except.toBool]
    by_cases hok : assigneeOk s b d = true
    · simp [Except.isOk, Except.toBool, hok]
    · simp [Except.isOk, Except.toBool, hok]
  · intro m hm t ht hok
    unfold updateTask
    simp only [hm, ht]
    rw [if_pos hok]

theorem claim10_update_task_no_role_check_witness :
    (updateTask storeSoleOwner "b1" "t1" "u2"
        ⟨some "S", none, none, none⟩).isOk = true :=
  (claim10_update_task_no_role_check storeSoleOwner "b1" "t1" "u2"
      ⟨some "S", none, none, none⟩).1.mpr ⟨by decide, by decide, by decide⟩

/-- C8: searchUsers returns the empty sequence (with no store query)
whenever the trimmed query is shorter than 2; otherwise it agrees with
the spec-side restatement — exactly the users whose email or name
contains the query case-insensitively, excluding the caller, ordered
by name ascending, truncated to limit — and the default limit is 10. -/
theorem claim8_search_users (s : Store) (q uid : String) (limit : Nat) :
    searchUsers s q uid limit = searchUsersSpec s q uid limit ∧
    ((strTrim q).length < 2 → searchUsers s q uid limit = []) ∧
    (∀ u ∈ searchUsers s q uid limit,
      u ∈ s.users ∧ ¬u.id = uid ∧
        (ciContains u.email q = true ∨ ciContains u.name q = true)) ∧
    (searchUsers s q uid limit).length ≤ limit ∧
    List.Pairwise nameOrder (searchUsers s q uid limit) ∧
    searchUsersDefault s q uid = searchUsers s q uid 10 := by
  haveI instTotal : IsTotal User nameOrder := ⟨fun u v => by
    unfold nameOrder
    have htot := charsLe_total u.name.data v.name.data
    cases hca : charsLe u.name.data v.name.data with
    | true => exact Or.inl rfl
    | false =>
      right
      rw [hca] at htot
      simpa using htot⟩
  haveI instTrans : IsTrans User nameOrder :=
    ⟨fun x y z hab hbc => charsLe_trans _ _ _ hab hbc⟩
  have heq : searchUsers s q uid limit = searchUsersSpec s q uid limit := by
    unfold searchUsers searchUsersSpec
    by_cases h2 : (strTrim q).length < 2
    · rw [if_pos (by simp [h2]), if_pos h2]
    · have hq : ¬q = "" := by
        intro hq0
        rw [hq0] at h2
        exact h2 (by decide)
      rw [if_neg (by simp [hq, h2]), if_neg h2]
      have hfil : s.users.filter (userMatches q uid)
          = s.users.filter (fun u => decide (u.id ≠ uid)
              && (ciContains u.email q || ciContains u.name q)) := by
        apply List.filter_congr
        intro u _
        unfold userMatches
        by_cases hid : u.id = uid
        · simp [hid]
        · simp [hid]
      rw [hfil]
  refine ⟨heq, ?_, ?_, ?_, ?_, rfl⟩
  · intro h2
    rw [heq]
    unfold searchUsersSpec
    rw [if_pos h2]
  · intro u hu
    unfold searchUsers at hu
    by_cases hg : (decide (q = "") || decide ((strTrim q).length < 2)) = true
    · rw [if_pos hg] at hu
      simp at hu
    · rw [if_neg hg] at hu
      have hu2 : u ∈ sortByName (s.users.filter (userMatches q uid)) :=
        List.take_subset _ _ hu
      have hu3 : u ∈ s.users.filter (userMatches q uid) := by
        unfold sortByName at hu2
        exact (List.perm_insertionSort nameOrder _).mem_iff.mp hu2
      have hu4 := List.mem_filter.mp hu3
      have h5 := hu4.2
      unfold userMatches at h5
      simp only [Bool.and_eq_true, Bool.not_eq_eq_eq_not, Bool.not_true,
        Bool.or_eq_true, beq_eq_false_iff_ne] at h5
      exact ⟨hu4.1, h5.1, h5.2⟩
  · unfold searchUsers
    by_cases hg : (decide (q = "") || decide ((strTrim q).length < 2)) = true
    · rw [if_pos hg]
      simp
    · rw [if_neg hg]
      exact List.length_take_le _ _
  · unfold searchUsers
    by_cases hg : (decide (q = "") || decide ((strTrim q).length < 2)) = true
    · rw [if_pos hg]
      simp
    · rw [if_neg hg]
      apply List.Pairwise.sublist (List.take_sublist _ _)
      unfold sortByName
      exact List.sorted_insertionSort nameOrder _

theorem claim8_search_users_witness :
    ((strTrim "a").length < 2 ∧ searchUsers storeTwoOwners "a" "u2" 10 = []) ∧
      searchUsers storeTwoOwners "ali" "u2" 10
        = searchUsersSpec storeTwoOwners "ali" "u2" 10 ∧
      searchUsers storeTwoOwners "ali" "u2" 10 = [⟨"u1", "a@x.com", "Alice"⟩] :=
  ⟨⟨by decide, (claim8_search_users storeTwoOwners "a" "u2" 10).2.1 (by decide)⟩,
   (claim8_search_users storeTwoOwners "ali" "u2" 10).1, by decide⟩

end Adaboards
